import Mathlib

/-!
Verification of the document-formatting validator in
`src/app/utils/formatting.py` (functions `check_document_formatting`,
`remove_duplicate_errors`, `add_comments_to_document`,
`check_headings_formatting`, `validate_lists`, `check_table_formatting`,
`check_structural_elements`, `validate_prefix_format`).

Texts are modelled as `List Char` (Python `str` is a sequence of unicode
code points, exactly Lean `Char`).  Machine integers do not overflow in
any of the modelled code paths (all counters are small), so `Nat`/`Int`
are used directly.
-/

set_option maxRecDepth 10000

namespace Fmt

/-- `DocumentElementType` from `app/utils/enums.py` (values that can be
carried by an error record: `paragraph` or `table`; `picture` is never
used by `add_error` call sites relevant here but is kept for fidelity). -/
inductive DocumentElementType
  | paragraph
  | table
  | picture
deriving DecidableEq, Repr

/-- `DocumentTextElementType` from `app/utils/enums.py`: the error
category derived by `add_error` from keywords of the message. -/
inductive DocumentTextElementType
  | default
  | heading
  | list
  | listing
  | image
  | text
  | table
  | code
  | structure_
deriving DecidableEq, Repr

/-- An error record exactly as built by `add_error`
(`formatting.py` lines 121-128): a dict with the five keys
`type`, `message`, `paragraph_text`, `index`, `element_type` (and no
others; in particular no `element` key is ever stored in the dict). -/
structure ErrorRecord where
  type : DocumentTextElementType
  message : List Char
  paragraph_text : List Char
  index : Int
  element_type : Option DocumentElementType
deriving DecidableEq, Repr

/-- Recursive core of `remove_duplicate_errors` (lines 3798-3812).
The Python code folds over the list keeping a `seen` set of keys, where
the key of a record is the tuple of all its items except the key
`"element"`; since `add_error` never stores an `"element"` key, the key
is exactly the whole five-field record.  `seen` is modelled as the list
of already-kept records (membership is all that is used). -/
def removeDupAux (seen : List ErrorRecord) : List ErrorRecord → List ErrorRecord
  | [] => []
  | e :: rest =>
      if e ∈ seen then removeDupAux seen rest
      else e :: removeDupAux (e :: seen) rest

/-- `remove_duplicate_errors` (lines 3789-3812). -/
def remove_duplicate_errors (errors : List ErrorRecord) : List ErrorRecord :=
  removeDupAux [] errors

/-- Specification-side definition for the dedup claim (this one follows
the words of the claim, not the code): keep the first occurrence of each
record, drop every later duplicate. -/
def firstOccurrencesSpec : List ErrorRecord → List ErrorRecord
  | [] => []
  | e :: rest => e :: firstOccurrencesSpec (rest.filter (fun x => x ≠ e))
termination_by l => l.length
decreasing_by
  simp only [List.length_cons]
  exact Nat.lt_succ_of_le (List.length_filter_le _ _)

/-- Where a review comment is attached by `add_comments_to_document`:
either to the paragraph at `idx`, or to the first paragraph of the first
cell of the table at `idx`.  `placeholder` is true when that cell's first
paragraph has empty text, in which case the code first inserts a new
placeholder paragraph with text `ОШИБКА.` and red background (lines
3778-3783) and attaches the comment to it. -/
inductive CommentTarget
  | paragraph (idx : Nat)
  | tableCell (idx : Nat) (placeholder : Bool)
deriving DecidableEq, Repr

/-- A review comment added to the working copy. -/
structure Comment where
  message : List Char
  target : CommentTarget
deriving DecidableEq, Repr

/-- The part of a `docx` table that `add_comments_to_document` inspects:
the text of the first paragraph of cell (0,0). -/
structure TableModel where
  firstCellText : List Char
deriving DecidableEq, Repr

/-- The comment produced for one error record by the body of the loop of
`add_comments_to_document` (lines 3759-3785): paragraph records with an
index inside `0 ≤ idx < len(paragraphs)` get a comment on that
paragraph; table records with `0 ≤ idx < len(tables)` get a comment in
the first cell of that table; every other record (index `-1`, index out
of range, or an absent element type) produces nothing.  A failure of the
underlying `add_comment` call is caught and logged (lines 3767-3770,
3774-3785), so no record can abort the loop — in this total model that
exception handling is invisible. -/
def commentForRecord (nParas : Nat) (tables : List TableModel)
    (e : ErrorRecord) : Option Comment :=
  match e.element_type with
  | some DocumentElementType.paragraph =>
      if 0 ≤ e.index ∧ e.index < (nParas : Int) then
        some ⟨e.message, CommentTarget.paragraph e.index.toNat⟩
      else none
  | some DocumentElementType.table =>
      if 0 ≤ e.index ∧ e.index < (tables.length : Int) then
        match tables[e.index.toNat]? with
        | some t =>
            some ⟨e.message, CommentTarget.tableCell e.index.toNat (t.firstCellText = [])⟩
        | none => none
      else none
  | _ => none

/-- `add_comments_to_document` (lines 3739-3786): walks the error list
in order, attaches at most one comment per record, and finally saves the
document exactly once (`doc.save(output_path)`, line 3786).  Result:
the list of attached comments in order, and the number of saves. -/
def add_comments_to_document (nParas : Nat) (tables : List TableModel)
    (errors : List ErrorRecord) : List Comment × Nat :=
  (errors.foldl (fun acc e =>
      match commentForRecord nParas tables e with
      | some c => acc ++ [c]
      | none => acc) [], 1)

/-- Whether a record's location is resolvable in the document, i.e. the
loop of `add_comments_to_document` attaches a comment for it. -/
def validLocation (nParas : Nat) (tables : List TableModel)
    (e : ErrorRecord) : Bool :=
  match e.element_type with
  | some DocumentElementType.paragraph => decide (0 ≤ e.index ∧ e.index < (nParas : Int))
  | some DocumentElementType.table => decide (0 ≤ e.index ∧ e.index < (tables.length : Int))
  | _ => false

/-- The I/O environment and pipeline outcome seen by one call of
`check_document_formatting` (lines 3841-3938).  The validation passes
themselves are abstracted by their concatenated error output
`pipelineErrors` (the list built at lines 3910-3913) and by
`pipelineRaises`, true when some pass raises an unexpected exception
(caught at line 3935). -/
structure CheckInput where
  inputExists : Bool
  copyLocked : Bool
  docOpens : Bool
  pipelineRaises : Bool
  pipelineErrors : List ErrorRecord
  nParas : Nat
  tables : List TableModel

/-- The externally visible outcome of one call of
`check_document_formatting`: the returned boolean, whether the
duplicated copy was created on disk, the content written to the JSON
error report (`none` when the file is not written), how many times the
working copy was saved, and the review comments attached to it. -/
structure CheckOutput where
  result : Bool
  copyCreated : Bool
  reportWritten : Option (List ErrorRecord)
  docSaves : Nat
  comments : List Comment
deriving DecidableEq, Repr

/-- `check_document_formatting` (lines 3841-3938), modelled at the level
of its I/O effects:
* missing input (line 3857): return `False`, nothing written;
* `PermissionError` while duplicating (line 3864): return `False`;
* the copy fails to open as a `Document` (line 3873 raising, caught at
  line 3935): return `False`, the copied file exists but neither report
  nor comments are produced;
* an unexpected exception in a validation pass (caught at 3935):
  return `False`;
* otherwise dedup the concatenated errors (line 3916); on an empty list
  save the copy and return `True` without writing the report (3918-3922);
  on a non-empty list write the report (3925-3926), attach comments via
  `add_comments_to_document` (which saves the copy once) and return
  `True` (3930-3933). -/
def check_document_formatting (inp : CheckInput) : CheckOutput :=
  if inp.inputExists = false then
    ⟨false, false, none, 0, []⟩
  else if inp.copyLocked then
    ⟨false, false, none, 0, []⟩
  else if inp.docOpens = false then
    ⟨false, true, none, 0, []⟩
  else if inp.pipelineRaises then
    ⟨false, true, none, 0, []⟩
  else
    let allErrors := remove_duplicate_errors inp.pipelineErrors
    if allErrors = [] then
      ⟨true, true, none, 1, []⟩
    else
      let res := add_comments_to_document inp.nParas inp.tables allErrors
      ⟨true, true, some allErrors, res.2, res.1⟩

/-! ## Heading numbering continuity (`check_headings_formatting`, lines 1739-1796) -/

/-- The mutable dict `last_heading_numbers : Dict[int, List[int]]` of
`check_headings_formatting`, as a partial map from level to the number
parts last seen at that level. -/
def HeadState := Nat → Option (List Nat)

/-- Initial value (lines 1566-1567): `{1: [0], 2: [0, 0], 3: [0, 0, 0]}`. -/
def initHeadState : HeadState := fun l =>
  if l = 1 then some [0]
  else if l = 2 then some [0, 0]
  else if l = 3 then some [0, 0, 0]
  else none

/-- Numbering-continuity errors of `check_headings_formatting`.  `idx`
is the paragraph index; `expected` is the number rendered with dots into
the error message:
* `parentMismatch` — line 1752, constant message;
* `seqBreak` — line 1767, message `"Нарушена последовательность
  нумерации заголовка. Ожидалось '<expected>'."`;
* `subStart` — line 1781, message `"Подзаголовок должен начинаться с
  '1'. Ожидалось '<expected>'."`. -/
inductive HeadErr
  | parentMismatch (idx : Nat)
  | seqBreak (idx : Nat) (expected : List Nat)
  | subStart (idx : Nat) (expected : List Nat)
deriving DecidableEq, Repr

/-- One pass of the numbering check (lines 1739-1796) for an accepted
heading with number parts `parts` (nonempty by the regex
`^(\d+(?:\.\d+)*)\s+(.+)` that produced them) at paragraph `idx`.
Returns the updated `last_heading_numbers` and the emitted errors. -/
def headingNumStep (st : HeadState) (idx : Nat) (parts : List Nat) :
    HeadState × List HeadErr :=
  let level := parts.length
  -- lines 1740-1742: `last_parts = last_heading_numbers.get(level, [0]*level)`
  -- (and the same default when the stored list is empty)
  let lastParts :=
    match st level with
    | some ps => if ps = [] then List.replicate level 0 else ps
    | none => List.replicate level 0
  -- lines 1745-1761: one error per mismatching parent level 1..level-1
  let parentErrs := (List.range' 1 (level - 1)).filterMap (fun pl =>
    let parentParts := (st pl).getD []
    if parts.length > pl ∧ parentParts.take pl ≠ parts.take pl then
      some (HeadErr.parentMismatch idx)
    else none)
  -- lines 1763-1790: only when no parent mismatch was found
  let curErrs :=
    if parentErrs = [] then
      if parts.dropLast = lastParts.dropLast then
        if parts.getLastD 0 ≠ lastParts.getLastD 0 + 1 then
          [HeadErr.seqBreak idx (lastParts.dropLast ++ [lastParts.getLastD 0 + 1])]
        else []
      else
        if parts.getLastD 0 ≠ 1 then
          [HeadErr.subStart idx (parts.dropLast ++ [1])]
        else []
    else []
  -- lines 1792-1796: store `parts` at `level`, drop all deeper levels
  let st' : HeadState := fun l =>
    if level < l then none else if l = level then some parts else st l
  (st', parentErrs ++ curErrs)

/-- The numbering-continuity errors produced for a document whose
accepted headings (bold, correct size, matching the numeric-prefix
pattern — those reaching line 1739) appear in the given order, each as
`(paragraph index, number parts)`. -/
def headingNumErrors (headings : List (Nat × List Nat)) : List HeadErr :=
  (headings.foldl (fun acc h =>
      let r := headingNumStep acc.1 h.1 h.2
      (r.1, acc.2 ++ r.2)) (initHeadState, [])).2

/-! ## List terminal punctuation (`validate_lists`, lines 1375-1419) -/

/-- One item of an ordinary list group as seen by the terminal
punctuation loop: its content text (`item[1]`, already stripped of the
prefix) and whether some nonblank run of its paragraph is bold with size
14 or 16 pt (the `is_potential_heading` test of lines 1377-1380, which
makes the loop skip the item). -/
structure LItem where
  content : List Char
  potentialHeading : Bool
deriving DecidableEq, Repr

/-- Terminal punctuation errors (constant messages):
* `firstBad` — line 1386: the first item of a multi-item group must end
  in `,` or `;`;
* `lastBad` — line 1398: the last item must end in `.`;
* `mismatch` — line 1411: a middle item must end with the same character
  as the first. -/
inductive PunctErr
  | firstBad (idx : Nat)
  | lastBad (idx : Nat)
  | mismatch (idx : Nat)
deriving DecidableEq, Repr

/-- `ALLOWED_END_CHARS = {',', ';'}` (line 26). -/
def ALLOWED_END_CHARS : List Char := [',', ';']

/-- The `end_char` value after the first item of a multi-item group
(line 1395). -/
def firstEndChar (content : List Char) : Option Char :=
  if content ≠ [] ∧ content.getLastD ' ' ∈ ALLOWED_END_CHARS then
    some (content.getLastD ' ')
  else none

/-- The `end_char` value after a middle item (lines 1408-1409). -/
def midEndChar (endChar : Option Char) (content : List Char) : Option Char :=
  if endChar = none ∧ content ≠ [] then
    some (if content.getLastD ' ' ∈ ALLOWED_END_CHARS then
            content.getLastD ' ' else ',')
  else endChar

/-- The error emitted for a middle item (lines 1410-1419). -/
def mismatchErrs (ind : Nat) (endChar : Option Char) (content : List Char) :
    List PunctErr :=
  match endChar with
  | some c =>
      if content ≠ [] ∧ content.getLastD ' ' ≠ c then [PunctErr.mismatch ind]
      else []
  | none => []

/-- Loop body of lines 1375-1419:
`n` is `len(group)`, `ind` the current index, `endChar` the running
`end_char` variable.  Python `content[-1]` is modelled by
`content.getLastD ' '` (guarded by `content ≠ []` exactly where the
Python guards with `if content`). -/
def punctAux (n : Nat) : Nat → Option Char → List LItem → List PunctErr
  | _, _, [] => []
  | ind, endChar, it :: rest =>
      if it.potentialHeading then punctAux n (ind + 1) endChar rest
      else if ind = 0 ∧ 1 < n then
        (if it.content ≠ [] ∧ it.content.getLastD ' ' ∉ ALLOWED_END_CHARS then
            [PunctErr.firstBad ind]
          else []) ++ punctAux n (ind + 1) (firstEndChar it.content) rest
      else if ind = n - 1 then
        (if it.content ≠ [] ∧ it.content.getLastD ' ' ≠ '.' then
            [PunctErr.lastBad ind]
          else []) ++ punctAux n (ind + 1) endChar rest
      else
        mismatchErrs ind (midEndChar endChar it.content) it.content ++
          punctAux n (ind + 1) (midEndChar endChar it.content) rest

/-- The terminal-punctuation errors emitted for one (already filtered)
ordinary list group by the loop of lines 1375-1419. -/
def groupPunctErrors (group : List LItem) : List PunctErr :=
  punctAux group.length 0 none group

/-- Index carried by a punctuation error. -/
def PunctErr.idx : PunctErr → Nat
  | PunctErr.firstBad i => i
  | PunctErr.lastBad i => i
  | PunctErr.mismatch i => i

/-- Specification-side description (following the claim's words) of what
the loop does after the first item once the required terminator `c` is
fixed: every non-last item must end in `c`, the last item must end in
`.`. -/
def tailSpec (n : Nat) (c : Char) : Nat → List LItem → List PunctErr
  | _, [] => []
  | ind, it :: rest =>
      (if ind = n - 1 then
        (if it.content ≠ [] ∧ it.content.getLastD ' ' ≠ '.' then
          [PunctErr.lastBad ind]
        else [])
      else
        (if it.content ≠ [] ∧ it.content.getLastD ' ' ≠ c then
          [PunctErr.mismatch ind]
        else [])) ++ tailSpec n c (ind + 1) rest

/-- Default list item (used only for positional `getD` statements). -/
def dfltItem : LItem := ⟨[], false⟩

/-! ## Text helpers shared by the machines below -/

/-- ASCII decimal digit, the character class `\d` of the regexes used by
the validator (Python `re` on `str` with no `re.UNICODE` surprises for
these patterns: the document texts contain only ASCII digits). -/
def isDigitC (c : Char) : Bool := '0' ≤ c ∧ c ≤ '9'

/-- The whitespace stripped by Python `str.strip()` and matched by `\s`
(space, tab, newline, carriage return, vertical tab, form feed). -/
def isPyWs (c : Char) : Bool :=
  c = ' ' ∨ c = '\t' ∨ c = '\n' ∨ c = '\r' ∨ c = Char.ofNat 11 ∨ c = Char.ofNat 12

/-- Python `str.strip()`. -/
def pyStrip (l : List Char) : List Char :=
  ((l.dropWhile isPyWs).reverse.dropWhile isPyWs).reverse

/-- Python `str.startswith(pre)`. -/
def startsWithL (pre l : List Char) : Bool := l.take pre.length = pre

/-- The numeric value of a digit string, Python `int(x)`. -/
def digitsToNat (l : List Char) : Nat :=
  l.foldl (fun a c => a * 10 + (c.toNat - '0'.toNat)) 0

/-- Split a character list at every `'.'` (used to model
`prefix.split('.')` and component-wise regex matching). -/
def splitOnDot : List Char → List (List Char)
  | [] => [[]]
  | c :: rest =>
      if c = '.' then [] :: splitOnDot rest
      else
        match splitOnDot rest with
        | g :: gs => (c :: g) :: gs
        | [] => [[c]]

/-! ## List prefix validation (`validate_prefix_format`, lines 225-322) -/

/-- Errors of `validate_prefix_format`; the messages are
* `badLevel1` — line 254: level-1 prefix must match `\d+\.$`
  (format `'X.'`);
* `badLevel23` — line 268: level-2/3 prefix must match
  `\d+(?:\.\d+){level-1}$` (`'X.Y'` / `'X.Y.Z'`, no trailing dot);
* `tooDeep` — line 281: nesting deeper than three levels;
* `invalidFormat` — line 310, the generic message `"В списке
  используется недопустимый формат. Разрешены только 1 2 3 и т.д."`
  emitted for every numbering format other than `decimal` (the
  `russianLower` branch, lines 294-308, is commented out in the
  source). -/
inductive PrefixErr
  | badLevel1 (pre : List Char)
  | badLevel23 (pre : List Char) (level : Nat)
  | tooDeep (pre : List Char)
  | invalidFormat
deriving DecidableEq, Repr

/-- The catalog format string `"decimal"`. -/
def decimalFmt : List Char := (r"decimal").toList

/-- Regex `\d+\.$` (anchored on both sides by `re.match` + `$`). -/
def matchesLevel1 (pre : List Char) : Bool :=
  pre.dropLast ≠ [] ∧ pre.dropLast.all isDigitC ∧ pre.getLastD ' ' = '.'

/-- Regex `\d+(?:\.\d+){k-1}$`: exactly `k` dot-separated nonempty digit
groups and nothing else. -/
def matchesLevelK (pre : List Char) (k : Nat) : Bool :=
  (splitOnDot pre).length = k ∧
    (splitOnDot pre).all (fun g => g ≠ [] ∧ g.all isDigitC)

/-- `validate_prefix_format` (lines 225-322), with the numbering format
as resolved from the numbering catalog (`fmt`).  The `element` /
`index` of the produced error dicts is not part of this claim's model;
the structured error carries the same payload the message carries. -/
def validate_prefix_format (pre : List Char) (fmt : List Char) : List PrefixErr :=
  if fmt = decimalFmt then
    -- lines 249-250: `level = prefix.count('.') + 1 if not
    -- prefix.endswith('.') else prefix.count('.')`
    let dots := pre.count '.'
    let level := if pre ≠ [] ∧ pre.getLastD ' ' = '.' then dots else dots + 1
    if level = 1 then
      if matchesLevel1 pre then [] else [PrefixErr.badLevel1 pre]
    else if level = 2 ∨ level = 3 then
      if matchesLevelK pre level then [] else [PrefixErr.badLevel23 pre level]
    else
      [PrefixErr.tooDeep pre]
  else
    [PrefixErr.invalidFormat]

/-! ## Appendix letters (`check_structural_elements`, lines 2036-2250) -/

/-- `allowed_appendix_letters` (lines 2063-2066): the Cyrillic capitals
with `Ё З Й О Ч Ъ Ы Ь` excluded. -/
def allowed_appendix_letters : List Char :=
  ['А', 'Б', 'В', 'Г', 'Д', 'Е', 'Ж', 'И', 'К', 'Л', 'М',
   'Н', 'П', 'Р', 'С', 'Т', 'У', 'Ф', 'Х', 'Ц', 'Ш', 'Щ', 'Э', 'Ю', 'Я']

/-- The three exact structural titles of `expected_elements`
(lines 2057-2061). -/
def structuralTitles : List (List Char) :=
  [(r"Введение").toList, (r"Заключение").toList,
   (r"Перечень использованных информационных ресурсов").toList]

/-- Errors of the appendix-letter logic:
* `invalidLetter` — line 2173: the text after `"Приложение "` is not a
  single letter of the allowed alphabet;
* `duplicateLetter` — line 2183: the letter was already used. -/
inductive AppErr
  | invalidLetter (idx : Nat) (letter : List Char)
  | duplicateLetter (idx : Nat) (letter : Char)
deriving DecidableEq, Repr

/-- One paragraph of the scan of `check_structural_elements`
(lines 2068-2193), restricted to its effect on the set of accepted
appendix letters and the two letter errors.  The state is the
`appendix_letters` set, kept in insertion order.  Formatting checks of
structural/appendix paragraphs emit unrelated errors and do not touch
this state, so they are not part of this model. -/
def appendixStepCore (letters : List Char) (idx : Nat) (text : List Char) :
    List Char × List AppErr :=
  if text = [] then (letters, [])
  else if text ∈ structuralTitles then (letters, [])
  else if startsWithL ((r"Приложение").toList) text then
    -- line 2171: `letter = text[len("Приложение "):].strip()`
    match pyStrip (text.drop 11) with
    | [c] =>
        if c ∈ allowed_appendix_letters then
          if c ∈ letters then (letters, [AppErr.duplicateLetter idx c])
          else (letters ++ [c], [])
        else (letters, [AppErr.invalidLetter idx [c]])
    | l => (letters, [AppErr.invalidLetter idx l])
  else (letters, [])

/-- `appendixStepCore` applied to the stripped paragraph text (the loop
strips at line 2069). -/
def appendixStep (letters : List Char) (idx : Nat) (rawText : List Char) :
    List Char × List AppErr :=
  appendixStepCore letters idx (pyStrip rawText)

/-- One fold step over the paragraph texts, carrying
`(letters, next index, errors)`. -/
def appendixFoldStep (acc : List Char × Nat × List AppErr) (t : List Char) :
    List Char × Nat × List AppErr :=
  ((appendixStep acc.1 acc.2.1 t).1, acc.2.1 + 1,
    acc.2.2 ++ (appendixStep acc.1 acc.2.1 t).2)

/-- Fold of `appendixStep` over the paragraph texts. -/
def appendixScanAux (texts : List (List Char)) : List Char × Nat × List AppErr :=
  texts.foldl appendixFoldStep ([], 0, [])

/-- The full scan: accepted appendix letters and letter errors for a
document given as its paragraph texts in order. -/
def appendixScan (texts : List (List Char)) : List Char × List AppErr :=
  ((appendixScanAux texts).1, (appendixScanAux texts).2.2)

/-! ## Table caption numbering (`check_table_formatting`, lines 2770-3117)

The model covers the text-driven state machine of the paragraph loop:
level-1 heading tracking (2807-2814), appendix tracking (2817-2827) and
the main-caption branch (2912-3054) together with the trailing
punctuation check (3101-3108).  Omitted, because they neither read nor
write the mode/counter state used by the caption-format-consistency
check: the run/paragraph formatting checks (2861-2909, 3057-3099), the
continuation/ending branches (3119-3211), the table-element checks
(3214-3290) and the unclosed-continuation check (3292-3301). -/

/-- Uppercase Cyrillic, the character class `[А-Я]` (U+0410..U+042F). -/
def isCyrUpper (c : Char) : Bool := 'А' ≤ c ∧ c ≤ 'Я'

/-- Drop an expected literal prefix, or fail. -/
def dropLit (pre l : List Char) : Option (List Char) :=
  if l.take pre.length = pre then some (l.drop pre.length) else none

/-- The tail `" – [А-Я].*"` of the caption regexes: a space, an
en-dash, a space, then an uppercase Cyrillic letter and anything. -/
def sepNameOk (l : List Char) : Bool :=
  match l with
  | ' ' :: '–' :: ' ' :: c :: _ => isCyrUpper c
  | _ => false

/-- `re.fullmatch(r'Таблица (\d+(?:\.\d+)?) – ([А-Я].*)', text)`
(line 2835), returning the number parts (`[Y]` or `[Y, X]`).  The
optional group is taken exactly when a dot followed by digits comes
after the first digit run (backtracking cannot rescue a failed
separator, since the separator starts with a space). -/
def parseMainCaption (text : List Char) : Option (List Nat) :=
  match dropLit ((r"Таблица ").toList) text with
  | none => none
  | some r1 =>
      let d1 := r1.takeWhile isDigitC
      let r2 := r1.dropWhile isDigitC
      if d1 = [] then none
      else
        match r2 with
        | '.' :: r2' =>
            let d2 := r2'.takeWhile isDigitC
            let r3 := r2'.dropWhile isDigitC
            if d2 ≠ [] ∧ sepNameOk r3 then some [digitsToNat d1, digitsToNat d2]
            else none
        | _ => if sepNameOk r2 then some [digitsToNat d1] else none

/-- `re.fullmatch(r'Таблица ([А-Я]\.\d+) – ([А-Я].*)', text)`
(line 2832), returning the appendix letter and number. -/
def parseAppendixCaption (text : List Char) : Option (Char × Nat) :=
  match dropLit ((r"Таблица ").toList) text with
  | none => none
  | some (c :: '.' :: r2) =>
      if isCyrUpper c then
        let d := r2.takeWhile isDigitC
        let r3 := r2.dropWhile isDigitC
        if d ≠ [] ∧ sepNameOk r3 then some (c, digitsToNat d) else none
      else none
  | some _ => none

/-- `re.match(r'^(\d+)\s+(.+)', text)` (line 2807), returning the
leading number.  With backtracking, the pattern matches iff the text is
a digit run followed by a whitespace character and at least one further
character (texts are assumed newline-free). -/
def parseHeadNum (text : List Char) : Option Nat :=
  let d := text.takeWhile isDigitC
  let r := text.dropWhile isDigitC
  match r with
  | w :: _ :: _ => if d ≠ [] ∧ isPyWs w then some (digitsToNat d) else none
  | _ => none

/-- Caption numbering format mode: `'sequential'` vs `'yx'`
(line 3022). -/
inductive CapFmt
  | sequential
  | yx
deriving DecidableEq, Repr

/-- Errors of the caption branch, one constructor per `add_error` call
site (source line in parentheses):
`badCaption` (2917), `appendixPrefixMismatch` (2936),
`appendixSeqBreak` (2948), `outsideAppendixFmt` (2960),
`tooDeepCaption` (2972), `yxSecondZero` (2982), `badHeadingRef` (2997),
`sectionSeqBreak` (3009), `modeMismatch` (3025) — the message
`"Подпись таблицы использует отличный формат от предыдущей подписи
таблицы. Ожидается: ..."` with the expected format rendered from the
previous caption's mode — `mainSeqBreak` (3040) and `endsPunct`
(3102). -/
inductive TabErr
  | badCaption (idx : Nat)
  | appendixPrefixMismatch (idx : Nat)
  | appendixSeqBreak (idx : Nat) (letter : Char) (expected : Nat)
  | outsideAppendixFmt (idx : Nat) (letter : Char)
  | tooDeepCaption (idx : Nat)
  | yxSecondZero (idx : Nat)
  | badHeadingRef (idx : Nat) (y : Nat)
  | sectionSeqBreak (idx : Nat) (heading : Nat) (expected : Nat)
  | modeMismatch (idx : Nat) (expected : CapFmt)
  | mainSeqBreak (idx : Nat) (expected : Nat)
  | endsPunct (idx : Nat)
deriving DecidableEq, Repr

/-- The mutable state of `check_table_formatting`'s paragraph loop
(lines 2786-2801) that the caption branch reads or writes:
`current_appendix`, `current_heading`, the key set of
`heading_numbers`, `section_numbers` (total map, absent key = 0, as
every read uses `.get(_, 0)` or follows an explicit `= 0` write),
`sequential_numbers['main']`, the per-letter part of
`sequential_numbers` (same total-map reading), and
`last_caption_format`. -/
structure TabState where
  currentAppendix : Option Char
  currentHeading : Option Nat
  headingKeys : List Nat
  sectionNumbers : Nat → Nat
  seqMain : Nat
  seqApp : Char → Nat
  lastFmt : Option CapFmt

/-- Initial state (lines 2790-2801). -/
def initTabState : TabState :=
  ⟨none, none, [], fun _ => 0, 0, fun _ => 0, none⟩

/-- Pointwise update of a total map. -/
def updMap (m : Nat → Nat) (k v : Nat) : Nat → Nat :=
  fun x => if x = k then v else m x

/-- Pointwise update of a total map keyed by characters. -/
def updMapC (m : Char → Nat) (k : Char) (v : Nat) : Char → Nat :=
  fun x => if x = k then v else m x

/-- The punctuation suffixes rejected at line 3101. -/
def capPunct : List Char := ['.', ',', '!', '?', '/', '-', ';', ':']

/-- `current_format` of line 3022: `'sequential'` for a plain number,
`'yx'` for a dotted one. -/
def capFmtOf (parts : List Nat) : CapFmt :=
  if parts.length = 1 then CapFmt.sequential else CapFmt.yx

/-- The format-consistency check of lines 3023-3033: an error against
the previous caption's recorded mode, when one exists and differs. -/
def modeCheck (lastFmt : Option CapFmt) (idx : Nat) (curFmt : CapFmt) :
    List TabErr :=
  match lastFmt with
  | some f => if f ≠ curFmt then [TabErr.modeMismatch idx f] else []
  | none => []

/-- Recognizer for the caption-format-consistency error. -/
def isModeErr : TabErr → Bool
  | TabErr.modeMismatch _ _ => true
  | _ => false

/-- Lines 2969-2991: number-shape errors of a main-body caption (the
`tooDeep` branch is unreachable through the regex, which admits at most
two parts; it is kept for fidelity). -/
def errsAPart (idx : Nat) (parts : List Nat) : List TabErr :=
  if 2 < parts.length then [TabErr.tooDeepCaption idx]
  else if parts.length = 2 ∧ parts.getLastD 0 = 0 then [TabErr.yxSecondZero idx]
  else []

/-- Lines 2995-3018: for a `Y.X` caption, the heading-reference check
and the per-section sequence check (which also bumps the per-heading
counter when a current heading exists). -/
def yxPart (st : TabState) (idx : Nat) (parts : List Nat) :
    TabState × List TabErr :=
  if parts.length = 2 then
    match st.currentHeading with
    | some h =>
        ({ st with sectionNumbers :=
            (updMap st.sectionNumbers h (st.sectionNumbers h + 1)) },
         (if parts.headD 0 ∈ st.headingKeys then []
          else [TabErr.badHeadingRef idx (parts.headD 0)]) ++
         (if parts = [h, st.sectionNumbers h + 1] then []
          else [TabErr.sectionSeqBreak idx h (st.sectionNumbers h + 1)]))
    | none =>
        (st, if parts.headD 0 ∈ st.headingKeys then []
             else [TabErr.badHeadingRef idx (parts.headD 0)])
  else (st, [])

/-- Line 3034: record the current caption's mode as the new
`last_caption_format`. -/
def withMode (st : TabState) (parts : List Nat) : TabState :=
  { st with lastFmt := some (capFmtOf parts) }

/-- Lines 3036-3050: the running sequential check for a plain-number
caption. -/
def seqPart (st : TabState) (idx : Nat) (parts : List Nat) :
    TabState × List TabErr :=
  if parts.length = 1 then
    ({ st with seqMain := st.seqMain + 1 },
     if parts.headD 0 = st.seqMain + 1 then []
     else [TabErr.mainSeqBreak idx (st.seqMain + 1)])
  else (st, [])

/-- The caption sub-branch for a matched main-body caption
(`current_appendix` is `None`), lines 2958-3050, for number parts
`parts` (length 1 or 2 by the regex).  `is_appendix_number` cannot
match a digit-leading number, so the branch of line 2960 is dead here
and the model emits it for no input of this shape.  Error order follows
the source: shape errors, heading/section errors, the mode-consistency
error, then the sequential error. -/
def mainCaptionErrors (st : TabState) (idx : Nat) (parts : List Nat) :
    TabState × List TabErr :=
  ((seqPart (withMode (yxPart st idx parts).1 parts) idx parts).1,
   errsAPart idx parts ++ (yxPart st idx parts).2 ++
     modeCheck (yxPart st idx parts).1.lastFmt idx (capFmtOf parts) ++
     (seqPart (withMode (yxPart st idx parts).1 parts) idx parts).2)

/-- One iteration of the paragraph loop of `check_table_formatting`
(lines 2803-3117) restricted to the caption numbering machine. -/
def tableCapStep (st : TabState) (idx : Nat) (rawText : List Char) :
    TabState × List TabErr :=
  let text := pyStrip rawText
  -- lines 2807-2814: level-1 heading tracking
  let st0 :=
    match parseHeadNum text with
    | some y =>
        { st with
            currentHeading := some y
            headingKeys := st.headingKeys ++ [y]
            sectionNumbers := updMap st.sectionNumbers y 0 }
    | none => st
  -- lines 2817-2827: appendix tracking, then `continue`
  if startsWithL ((r"Приложение").toList) text then
    if 11 < text.length then
      match pyStrip (text.drop 11) with
      | [c] =>
          if c ∈ allowed_appendix_letters then
            ({ st0 with currentAppendix := some c }, [])
          else (st0, [])
      | _ => (st0, [])
    else (st0, [])
  else if startsWithL ((r"Таблица").toList) text then
    -- caption branch (2843, 2912-3117)
    let res :=
      match st0.currentAppendix with
      | some a =>
          match parseAppendixCaption text with
          | none => (st0, [TabErr.badCaption idx])
          | some (c, n) =>
              -- lines 2934-2957
              let errs1 :=
                if c ≠ a then [TabErr.appendixPrefixMismatch idx] else []
              let cnt := st0.seqApp a + 1
              let errs2 :=
                if n ≠ cnt then [TabErr.appendixSeqBreak idx a cnt] else []
              ({ st0 with seqApp := updMapC st0.seqApp a cnt }, errs1 ++ errs2)
      | none =>
          match parseMainCaption text with
          | none => (st0, [TabErr.badCaption idx])
          | some parts => mainCaptionErrors st0 idx parts
    -- line 3101: trailing punctuation (applies to any "Таблица"-text)
    let errsP :=
      if text.getLastD ' ' ∈ capPunct ∧ text ≠ [] then [TabErr.endsPunct idx]
      else []
    (res.1, res.2 ++ errsP)
  else (st0, [])

/-- The caption-numbering scan over the document's paragraph texts. -/
def tableCapScanAux (texts : List (List Char)) : TabState × Nat × List TabErr :=
  texts.foldl (fun acc t =>
      let r := tableCapStep acc.1 acc.2.1 t
      (r.1, acc.2.1 + 1, acc.2.2 ++ r.2)) (initTabState, 0, [])

/-- The caption-numbering errors of `check_table_formatting` for a
document given by its paragraph texts. -/
def tableCapErrors (texts : List (List Char)) : List TabErr :=
  (tableCapScanAux texts).2.2

/-! ## Helper lemmas -/

theorem firstOccurrencesSpec_cons (e : ErrorRecord) (rest : List ErrorRecord) :
    firstOccurrencesSpec (e :: rest) =
      e :: firstOccurrencesSpec (rest.filter (fun x => x ≠ e)) := by
  rw [firstOccurrencesSpec]

theorem mem_removeDupAux (x : ErrorRecord) :
    ∀ (l seen : List ErrorRecord), x ∈ removeDupAux seen l ↔ x ∈ l ∧ x ∉ seen := by
  intro l
  induction l with
  | nil => intro seen; simp [removeDupAux]
  | cons e rest ih =>
      intro seen
      by_cases he : e ∈ seen
      · rw [removeDupAux, if_pos he, ih seen]
        simp only [List.mem_cons]
        constructor
        · rintro ⟨hx, hns⟩; exact ⟨Or.inr hx, hns⟩
        · rintro ⟨hx | hx, hns⟩
          · exact absurd (hx ▸ he) hns
          · exact ⟨hx, hns⟩
      · rw [removeDupAux, if_neg he]
        simp only [List.mem_cons, ih]
        constructor
        · rintro (rfl | ⟨hx, hns⟩)
          · exact ⟨Or.inl rfl, he⟩
          · exact ⟨Or.inr hx, fun hs => hns (Or.inr hs)⟩
        · rintro ⟨rfl | hx, hns⟩
          · exact Or.inl rfl
          · by_cases hxe : x = e
            · exact Or.inl hxe
            · exact Or.inr ⟨hx, fun hm => hm.elim hxe hns⟩

theorem removeDupAux_nodup :
    ∀ (l seen : List ErrorRecord), (removeDupAux seen l).Nodup := by
  intro l
  induction l with
  | nil => intro seen; simp [removeDupAux]
  | cons e rest ih =>
      intro seen
      by_cases he : e ∈ seen
      · rw [removeDupAux, if_pos he]; exact ih seen
      · rw [removeDupAux, if_neg he]
        refine List.Nodup.cons ?_ (ih (e :: seen))
        intro hmem
        exact ((mem_removeDupAux e rest (e :: seen)).mp hmem).2 (List.mem_cons_self _ _)

theorem removeDupAux_sublist :
    ∀ (l seen : List ErrorRecord), List.Sublist (removeDupAux seen l) l := by
  intro l
  induction l with
  | nil => intro seen; simp [removeDupAux]
  | cons e rest ih =>
      intro seen
      by_cases he : e ∈ seen
      · rw [removeDupAux, if_pos he]
        exact (ih seen).trans (List.sublist_cons_self e rest)
      · rw [removeDupAux, if_neg he]
        exact List.Sublist.cons₂ e (ih (e :: seen))

theorem removeDupAux_eq_spec :
    ∀ (l seen : List ErrorRecord),
      removeDupAux seen l = firstOccurrencesSpec (l.filter (fun x => x ∉ seen)) := by
  intro l
  induction l with
  | nil => intro seen; simp [removeDupAux, firstOccurrencesSpec]
  | cons e rest ih =>
      intro seen
      by_cases he : e ∈ seen
      · rw [removeDupAux, if_pos he, List.filter_cons]
        have hpe : (decide (e ∉ seen)) = false := by simp [he]
        rw [hpe]
        simp only [Bool.false_eq_true, if_false]
        exact ih seen
      · rw [removeDupAux, if_neg he, List.filter_cons]
        have hpe : (decide (e ∉ seen)) = true := by simp [he]
        rw [hpe]
        simp only [if_true]
        rw [firstOccurrencesSpec_cons, ih (e :: seen), List.filter_filter]
        congr 1
        congr 1
        apply List.filter_congr
        intro x _
        by_cases hxe : x = e <;> by_cases hxs : x ∈ seen <;>
          simp [hxe, hxs, List.mem_cons]

theorem add_comments_fst_aux (nParas : Nat) (tables : List TableModel) :
    ∀ (errors : List ErrorRecord) (acc : List Comment),
      errors.foldl (fun acc e =>
        match commentForRecord nParas tables e with
        | some c => acc ++ [c]
        | none => acc) acc = acc ++ errors.filterMap (commentForRecord nParas tables) := by
  intro errors
  induction errors with
  | nil => intro acc; simp
  | cons e rest ih =>
      intro acc
      simp only [List.foldl_cons, List.filterMap_cons]
      cases h : commentForRecord nParas tables e with
      | none => simpa [h] using ih acc
      | some c => simp [h, ih (acc ++ [c])]

theorem add_comments_fst (nParas : Nat) (tables : List TableModel)
    (errors : List ErrorRecord) :
    (add_comments_to_document nParas tables errors).1 =
      errors.filterMap (commentForRecord nParas tables) := by
  simpa [add_comments_to_document] using add_comments_fst_aux nParas tables errors []

theorem add_comments_snd (nParas : Nat) (tables : List TableModel)
    (errors : List ErrorRecord) :
    (add_comments_to_document nParas tables errors).2 = 1 := rfl

theorem commentForRecord_none_of_invalid (nParas : Nat) (tables : List TableModel)
    (e : ErrorRecord) (h : validLocation nParas tables e = false) :
    commentForRecord nParas tables e = none := by
  unfold validLocation at h
  unfold commentForRecord
  cases he : e.element_type with
  | none => rfl
  | some t =>
      cases t with
      | paragraph =>
          rw [he] at h
          rw [decide_eq_false_iff_not] at h
          simp only [he]
          rw [if_neg h]
      | table =>
          rw [he] at h
          rw [decide_eq_false_iff_not] at h
          simp only [he]
          rw [if_neg h]
      | picture => simp only [he]

theorem commentForRecord_some_of_valid (nParas : Nat) (tables : List TableModel)
    (e : ErrorRecord) (h : validLocation nParas tables e = true) :
    ∃ c, commentForRecord nParas tables e = some c := by
  unfold validLocation at h
  unfold commentForRecord
  cases he : e.element_type with
  | none => rw [he] at h; cases h
  | some t =>
      cases t with
      | paragraph =>
          rw [he] at h
          rw [decide_eq_true_eq] at h
          simp only [he]
          rw [if_pos h]
          exact ⟨_, rfl⟩
      | table =>
          rw [he] at h
          rw [decide_eq_true_eq] at h
          have hlt : e.index.toNat < tables.length := by omega
          simp only [he]
          rw [if_pos h, List.getElem?_eq_getElem hlt]
          exact ⟨_, rfl⟩
      | picture => rw [he] at h; cases h

theorem filterMap_eq_filter_filterMap (nParas : Nat) (tables : List TableModel) :
    ∀ (errors : List ErrorRecord),
      errors.filterMap (commentForRecord nParas tables) =
        (errors.filter (validLocation nParas tables)).filterMap
          (commentForRecord nParas tables) := by
  intro errors
  induction errors with
  | nil => rfl
  | cons e rest ih =>
      by_cases hv : validLocation nParas tables e = true
      · rw [List.filterMap_cons, List.filter_cons, hv]
        simp only [if_true, List.filterMap_cons]
        rw [ih]
      · have hvf : validLocation nParas tables e = false :=
          Bool.eq_false_iff.mpr hv
        have hn := commentForRecord_none_of_invalid nParas tables e hvf
        rw [List.filterMap_cons, hn, List.filter_cons, hvf]
        simp only [Bool.false_eq_true, if_false]
        exact ih

theorem forall₂_filterMap_of_some {α β : Type} (f : α → Option β) :
    ∀ (l : List α), (∀ e ∈ l, ∃ c, f e = some c) →
      List.Forall₂ (fun e c => f e = some c) l (l.filterMap f) := by
  intro l
  induction l with
  | nil => intro _; simp [List.filterMap]
  | cons e rest ih =>
      intro h
      obtain ⟨c, hc⟩ := h e (List.mem_cons_self _ _)
      rw [List.filterMap_cons, hc]
      exact List.Forall₂.cons hc (ih (fun x hx => h x (List.mem_cons_of_mem _ hx)))

/-! ## Claim theorems -/

/-- C4: for every list of error records, `remove_duplicate_errors`
returns a list in which no two records share the identical
`(category, message, paragraphText, locationIndex, elementKind)` tuple
(a record *is* that tuple), the original order is preserved (the result
is a sublist of the input), and the first occurrence of each tuple is
the one kept (the result equals the first-occurrences specification). -/
theorem claim_C4_dedup (l : List ErrorRecord) :
    (remove_duplicate_errors l).Nodup ∧
    List.Sublist (remove_duplicate_errors l) l ∧
    remove_duplicate_errors l = firstOccurrencesSpec l := by
  refine ⟨removeDupAux_nodup l [], removeDupAux_sublist l [], ?_⟩
  have h := removeDupAux_eq_spec l []
  have hf : l.filter (fun x => decide (x ∉ ([] : List ErrorRecord))) = l := by
    simp
  rw [remove_duplicate_errors, h, hf]

/-- C1: when the input path references no existing file,
`check_document_formatting` returns `false` and writes nothing — no
duplicated output document, no JSON error report, no saves, no
comments. -/
theorem claim_C1_missing_input (inp : CheckInput)
    (h : inp.inputExists = false) :
    check_document_formatting inp =
      ⟨false, false, none, 0, []⟩ := by
  unfold check_document_formatting
  rw [h]
  simp

/-- Witness for C1 at a concrete input. -/
theorem claim_C1_witness :
    check_document_formatting ⟨false, false, true, false, [], 0, []⟩ =
      ⟨false, false, none, 0, []⟩ :=
  claim_C1_missing_input ⟨false, false, true, false, [], 0, []⟩ rfl

/-- C2: when the input exists, duplication succeeds, the copy opens as
a document model and no validation pass raises, the function returns
`true` regardless of how many violations were found; with an empty
deduplicated error list only the unannotated copy is re-saved (no
report, no comments); with a non-empty list the deduplicated error list
is serialized to the report path in order, and (when every record's
location is resolvable) the attached comments correspond one-to-one, in
order, to the records, each comment being the one generated at that
record's location. -/
theorem claim_C2_success_path (inp : CheckInput)
    (hex : inp.inputExists = true) (hlock : inp.copyLocked = false)
    (hopen : inp.docOpens = true) (hraise : inp.pipelineRaises = false) :
    (check_document_formatting inp).result = true ∧
    (remove_duplicate_errors inp.pipelineErrors = [] →
      (check_document_formatting inp).reportWritten = none ∧
      (check_document_formatting inp).comments = [] ∧
      (check_document_formatting inp).docSaves = 1) ∧
    (remove_duplicate_errors inp.pipelineErrors ≠ [] →
      (check_document_formatting inp).reportWritten =
        some (remove_duplicate_errors inp.pipelineErrors) ∧
      (check_document_formatting inp).docSaves = 1 ∧
      ((∀ e ∈ remove_duplicate_errors inp.pipelineErrors,
          validLocation inp.nParas inp.tables e = true) →
        List.Forall₂
          (fun e c => commentForRecord inp.nParas inp.tables e = some c)
          (remove_duplicate_errors inp.pipelineErrors)
          (check_document_formatting inp).comments)) := by
  unfold check_document_formatting
  rw [hex, hlock, hopen, hraise]
  simp only [Bool.true_eq_false, if_false, Bool.false_eq_true, if_true,
    reduceIte]
  by_cases hempty : remove_duplicate_errors inp.pipelineErrors = []
  · rw [if_pos hempty]
    exact ⟨rfl, fun _ => ⟨rfl, rfl, rfl⟩, fun hne => absurd hempty hne⟩
  · rw [if_neg hempty]
    refine ⟨rfl, fun he => absurd he hempty, fun _ => ⟨rfl, rfl, ?_⟩⟩
    intro hvalid
    show List.Forall₂ _ _
      ((add_comments_to_document inp.nParas inp.tables
        (remove_duplicate_errors inp.pipelineErrors)).1)
    rw [add_comments_fst inp.nParas inp.tables
      (remove_duplicate_errors inp.pipelineErrors)]
    exact forall₂_filterMap_of_some _ _
      (fun e he => commentForRecord_some_of_valid _ _ e (hvalid e he))

/-- Witness for C2 at a concrete input with one violation. -/
theorem claim_C2_witness :
    (check_document_formatting
      ⟨true, false, true, false,
        [⟨DocumentTextElementType.default, [], [], 0,
          some DocumentElementType.paragraph⟩], 1, []⟩).result = true :=
  (claim_C2_success_path _ rfl rfl rfl rfl).1

/-- C3 counterexample: a successful run with zero violations does NOT
write the (empty) error list to the report sink — the report file is
not created at all (`check_document_formatting` returns at line 3922
before the `json.dump` at line 3926). -/
theorem claim_C3_counterexample :
    (check_document_formatting ⟨true, false, true, false, [], 0, []⟩).result
        = true ∧
    remove_duplicate_errors ([] : List ErrorRecord) = [] ∧
    (check_document_formatting
        ⟨true, false, true, false, [], 0, []⟩).reportWritten = none ∧
    (check_document_formatting
        ⟨true, false, true, false, [], 0, []⟩).reportWritten ≠ some [] := by
  refine ⟨rfl, rfl, rfl, ?_⟩
  intro h
  cases h

/-- C3 (amended): whenever the working copy was successfully created
and all validation passes complete, the final error list is written to
the structured report sink only when it is non-empty (an empty list is
not serialized), the working copy is always re-saved exactly once, and
only a non-empty error list triggers attaching comments. -/
theorem claim_C3_amended (inp : CheckInput)
    (hex : inp.inputExists = true) (hlock : inp.copyLocked = false)
    (hopen : inp.docOpens = true) (hraise : inp.pipelineRaises = false) :
    (remove_duplicate_errors inp.pipelineErrors = [] →
      (check_document_formatting inp).reportWritten = none ∧
      (check_document_formatting inp).comments = []) ∧
    (remove_duplicate_errors inp.pipelineErrors ≠ [] →
      (check_document_formatting inp).reportWritten =
        some (remove_duplicate_errors inp.pipelineErrors)) ∧
    (check_document_formatting inp).docSaves = 1 := by
  unfold check_document_formatting
  rw [hex, hlock, hopen, hraise]
  simp only [Bool.true_eq_false, if_false, Bool.false_eq_true, if_true,
    reduceIte]
  by_cases hempty : remove_duplicate_errors inp.pipelineErrors = []
  · rw [if_pos hempty]
    exact ⟨fun _ => ⟨rfl, rfl⟩, fun hne => absurd hempty hne, rfl⟩
  · rw [if_neg hempty]
    exact ⟨fun he => absurd he hempty, fun _ => rfl, rfl⟩

/-- Witness for the amended C3 at a concrete zero-violation input. -/
theorem claim_C3_amended_witness :
    (check_document_formatting
        ⟨true, false, true, false, [], 3, []⟩).reportWritten = none ∧
    (check_document_formatting ⟨true, false, true, false, [], 3, []⟩).docSaves
        = 1 :=
  ⟨((claim_C3_amended ⟨true, false, true, false, [], 3, []⟩
      rfl rfl rfl rfl).1 rfl).1,
   (claim_C3_amended ⟨true, false, true, false, [], 3, []⟩
      rfl rfl rfl rfl).2.2⟩

/-- C10: `add_comments_to_document` is total over its error-record
input: a record whose index is `-1` or outside the valid range of the
document's paragraph list (or table list, for table-kind records)
yields no comment and aborts nothing; the comments attached are exactly
those generated, in order, for the records with resolvable locations;
and the document is saved exactly once, at the end. -/
theorem claim_C10_add_comments_total (nParas : Nat) (tables : List TableModel)
    (errors : List ErrorRecord) :
    (add_comments_to_document nParas tables errors).2 = 1 ∧
    (∀ e, validLocation nParas tables e = false →
      commentForRecord nParas tables e = none) ∧
    (add_comments_to_document nParas tables errors).1 =
      (errors.filter (validLocation nParas tables)).filterMap
        (commentForRecord nParas tables) := by
  refine ⟨add_comments_snd _ _ _,
    fun e he => commentForRecord_none_of_invalid nParas tables e he, ?_⟩
  rw [add_comments_fst, filterMap_eq_filter_filterMap]

/-- Witness for C10: a record located at paragraph `-1` (unlocated) and
one out of range attach nothing, while the save still happens once. -/
theorem claim_C10_witness :
    (add_comments_to_document 2 []
        [⟨DocumentTextElementType.default, [], [], -1,
            some DocumentElementType.paragraph⟩,
         ⟨DocumentTextElementType.default, [], [], 7,
            some DocumentElementType.paragraph⟩]).2 = 1 ∧
    commentForRecord 2 []
        ⟨DocumentTextElementType.default, [], [], -1,
          some DocumentElementType.paragraph⟩ = none := by
  have h := claim_C10_add_comments_total 2 []
    [⟨DocumentTextElementType.default, [], [], -1,
        some DocumentElementType.paragraph⟩,
     ⟨DocumentTextElementType.default, [], [], 7,
        some DocumentElementType.paragraph⟩]
  exact ⟨h.1, h.2.1 _ (by decide)⟩

/-- C5: for a document whose correctly formatted bold headings appear
in the order 1, 1.1, 1.2, 2, 2.1, `check_headings_formatting` emits
zero numbering-sequence errors; for headings 1, 1.1, 1.3 it emits
exactly one numbering-sequence error, located at the paragraph of
`1.3`, naming the expected number `1.2` (rendered into the message
`"Нарушена последовательность нумерации заголовка. Ожидалось '1.2'."`). -/
theorem claim_C5_heading_continuity :
    headingNumErrors [(10, [1]), (11, [1, 1]), (12, [1, 2]),
                      (13, [2]), (14, [2, 1])] = [] ∧
    headingNumErrors [(20, [1]), (21, [1, 1]), (22, [1, 3])] =
      [HeadErr.seqBreak 22 [1, 2]] := by
  constructor <;> decide

theorem mismatchErrs_shape (ind : Nat) (ec : Option Char) (content : List Char)
    (e : PunctErr) (h : e ∈ mismatchErrs ind ec content) :
    e = PunctErr.mismatch ind := by
  cases ec with
  | none => simp [mismatchErrs] at h
  | some c =>
      simp only [mismatchErrs] at h
      split at h
      · exact List.mem_singleton.mp h
      · simp at h

theorem midEndChar_some (c : Char) (content : List Char) :
    midEndChar (some c) content = some c := by
  unfold midEndChar
  rw [if_neg (by rintro ⟨h0, _⟩; cases h0)]

theorem punctAux_idx_ge (n : Nat) :
    ∀ (l : List LItem) (ind : Nat) (ec : Option Char) (e : PunctErr),
      e ∈ punctAux n ind ec l → ind ≤ e.idx := by
  intro l
  induction l with
  | nil => intro ind ec e h; simp [punctAux] at h
  | cons it rest ih =>
      intro ind ec e h
      rw [punctAux] at h
      split at h
      · exact Nat.le_of_succ_le (ih (ind + 1) ec e h)
      · split at h
        · rcases List.mem_append.mp h with hl | hr
          · split at hl
            · rw [List.mem_singleton.mp hl]; rfl
            · simp at hl
          · exact Nat.le_of_succ_le (ih (ind + 1) _ e hr)
        · split at h
          · rcases List.mem_append.mp h with hl | hr
            · split at hl
              · rw [List.mem_singleton.mp hl]; rfl
              · simp at hl
            · exact Nat.le_of_succ_le (ih (ind + 1) _ e hr)
          · rcases List.mem_append.mp h with hl | hr
            · rw [mismatchErrs_shape _ _ _ _ hl]; rfl
            · exact Nat.le_of_succ_le (ih (ind + 1) _ e hr)

theorem tailSpec_idx_ge (n : Nat) (c : Char) :
    ∀ (l : List LItem) (ind : Nat) (e : PunctErr),
      e ∈ tailSpec n c ind l → ind ≤ e.idx := by
  intro l
  induction l with
  | nil => intro ind e h; simp [tailSpec] at h
  | cons it rest ih =>
      intro ind e h
      rw [tailSpec] at h
      rcases List.mem_append.mp h with hl | hr
      · split at hl <;> split at hl <;>
          first
          | (rw [List.mem_singleton.mp hl]; rfl)
          | simp at hl
      · exact Nat.le_of_succ_le (ih (ind + 1) e hr)

theorem punctAux_eq_tailSpec (n : Nat) (c : Char) :
    ∀ (l : List LItem) (ind : Nat), 1 ≤ ind →
      (∀ it ∈ l, it.potentialHeading = false) →
      punctAux n ind (some c) l = tailSpec n c ind l := by
  intro l
  induction l with
  | nil => intro ind _ _; rfl
  | cons it rest ih =>
      intro ind hind hpl
      have hhead : it.potentialHeading = false := hpl it (List.mem_cons_self _ _)
      rw [punctAux, tailSpec]
      rw [if_neg (by rw [hhead]; exact Bool.false_ne_true)]
      rw [if_neg (by rintro ⟨h0, _⟩; omega)]
      by_cases hlast : ind = n - 1
      · rw [if_pos hlast, if_pos hlast]
        rw [ih (ind + 1) (by omega) (fun x hx => hpl x (List.mem_cons_of_mem _ hx))]
      · rw [if_neg hlast, if_neg hlast]
        rw [midEndChar_some]
        rw [ih (ind + 1) (by omega) (fun x hx => hpl x (List.mem_cons_of_mem _ hx))]
        rfl

theorem tailSpec_mem_mismatch (n : Nat) (c : Char) :
    ∀ (l : List LItem) (ind i : Nat),
      (∀ it ∈ l, it.content ≠ []) → ind ≤ i →
      (PunctErr.mismatch i ∈ tailSpec n c ind l ↔
        (i < ind + l.length ∧ i ≠ n - 1 ∧
          ((l.getD (i - ind) dfltItem).content.getLastD ' ' ≠ c))) := by
  intro l
  induction l with
  | nil =>
      intro ind i _ hle
      simp only [tailSpec, List.not_mem_nil, List.length_nil, Nat.add_zero,
        false_iff]
      rintro ⟨h1, _, _⟩
      omega
  | cons it rest ih =>
      intro ind i hne hle
      have hit : it.content ≠ [] := hne it (List.mem_cons_self _ _)
      rw [tailSpec]
      rcases Nat.eq_or_lt_of_le hle with rfl | hlt
      · have htail : PunctErr.mismatch ind ∉ tailSpec n c (ind + 1) rest := by
          intro hmem
          have := tailSpec_idx_ge n c rest (ind + 1) _ hmem
          simp [PunctErr.idx] at this
        rw [List.mem_append]
        simp only [Nat.sub_self, List.getD_cons_zero]
        constructor
        · rintro (hl | hr)
          · split at hl
            · split at hl <;> simp at hl
            · rename_i hnl
              split at hl
              · rename_i hcond
                refine ⟨by simp only [List.length_cons]; omega, hnl, hcond.2⟩
              · simp at hl
          · exact absurd hr htail
        · rintro ⟨h1, h2, h3⟩
          left
          rw [if_neg h2, if_pos ⟨hit, h3⟩]
          exact List.mem_singleton.mpr rfl
      · have hhead : PunctErr.mismatch i ∉
            (if ind = n - 1 then
              (if it.content ≠ [] ∧ it.content.getLastD ' ' ≠ '.' then
                [PunctErr.lastBad ind] else [])
            else
              (if it.content ≠ [] ∧ it.content.getLastD ' ' ≠ c then
                [PunctErr.mismatch ind] else [])) := by
          intro hmem
          split at hmem <;> split at hmem <;>
            first
            | (have h := List.mem_singleton.mp hmem
               cases h
               omega)
            | simp at hmem
        rw [List.mem_append]
        have hrec := ih (ind + 1) i
          (fun x hx => hne x (List.mem_cons_of_mem _ hx)) (by omega)
        constructor
        · rintro (hl | hr)
          · exact absurd hl hhead
          · obtain ⟨h1, h2, h3⟩ := hrec.mp hr
            refine ⟨by simp only [List.length_cons]; omega, h2, ?_⟩
            have hidx : i - ind = (i - (ind + 1)) + 1 := by omega
            rw [hidx, List.getD_cons_succ]
            exact h3
        · rintro ⟨h1, h2, h3⟩
          right
          apply hrec.mpr
          refine ⟨by simp only [List.length_cons] at h1; omega, h2, ?_⟩
          have hidx : i - ind = (i - (ind + 1)) + 1 := by omega
          rw [hidx, List.getD_cons_succ] at h3
          exact h3

theorem getLastD_default_irrel (l : List LItem) (a b : LItem) (h : l ≠ []) :
    l.getLastD a = l.getLastD b := by
  cases l with
  | nil => exact absurd rfl h
  | cons x xs => rw [List.getLastD_cons, List.getLastD_cons]

theorem punctAux_mem_lastBad (n : Nat) :
    ∀ (l : List LItem) (ind : Nat) (ec : Option Char),
      (∀ it ∈ l, it.potentialHeading = false ∧ it.content ≠ []) →
      ind + l.length = n →
      (PunctErr.lastBad (n - 1) ∈ punctAux n ind ec l ↔
        (l ≠ [] ∧ (l.getLastD dfltItem).content.getLastD ' ' ≠ '.')) := by
  intro l
  induction l with
  | nil =>
      intro ind ec _ _
      simp [punctAux]
  | cons it rest ih =>
      intro ind ec hpl hlen
      have hhead := hpl it (List.mem_cons_self _ _)
      rw [punctAux]
      rw [if_neg (by rw [hhead.1]; exact Bool.false_ne_true)]
      by_cases hfirst : ind = 0 ∧ 1 < n
      · rw [if_pos hfirst]
        have hrest : rest ≠ [] := by
          intro hr
          rw [hr] at hlen
          simp only [List.length_cons, List.length_nil] at hlen
          omega
        rw [List.mem_append]
        have hrec := ih (ind + 1) (firstEndChar it.content)
          (fun x hx => hpl x (List.mem_cons_of_mem _ hx))
          (by simp only [List.length_cons] at hlen; omega)
        constructor
        · rintro (hl | hr)
          · split at hl <;> simp at hl
          · obtain ⟨_, h2⟩ := hrec.mp hr
            refine ⟨List.cons_ne_nil _ _, ?_⟩
            rw [List.getLastD_cons, getLastD_default_irrel rest it dfltItem hrest]
            exact h2
        · rintro ⟨_, h2⟩
          right
          apply hrec.mpr
          refine ⟨hrest, ?_⟩
          rw [List.getLastD_cons, getLastD_default_irrel rest it dfltItem hrest] at h2
          exact h2
      · rw [if_neg hfirst]
        by_cases hlast : ind = n - 1
        · have hrest : rest = [] := by
            cases rest with
            | nil => rfl
            | cons y ys => simp only [List.length_cons] at hlen; omega
          subst hrest
          rw [if_pos hlast]
          simp only [punctAux, List.append_nil]
          constructor
          · intro hl
            split at hl
            · rename_i hcond
              refine ⟨List.cons_ne_nil _ _, ?_⟩
              simp only [List.getLastD_cons, List.getLastD_nil]
              exact hcond.2
            · simp at hl
          · rintro ⟨_, h2⟩
            simp only [List.getLastD_cons, List.getLastD_nil] at h2
            rw [if_pos ⟨hhead.2, h2⟩]
            rw [hlast]
            exact List.mem_singleton.mpr rfl
        · rw [if_neg hlast]
          have hrest : rest ≠ [] := by
            intro hr
            rw [hr] at hlen
            simp only [List.length_cons, List.length_nil] at hlen
            omega
          rw [List.mem_append]
          have hrec := ih (ind + 1) (midEndChar ec it.content)
            (fun x hx => hpl x (List.mem_cons_of_mem _ hx))
            (by simp only [List.length_cons] at hlen; omega)
          constructor
          · rintro (hl | hr)
            · have hsh := mismatchErrs_shape _ _ _ _ hl
              cases hsh
            · obtain ⟨_, h2⟩ := hrec.mp hr
              refine ⟨List.cons_ne_nil _ _, ?_⟩
              rw [List.getLastD_cons, getLastD_default_irrel rest it dfltItem hrest]
              exact h2
          · rintro ⟨_, h2⟩
            right
            apply hrec.mpr
            refine ⟨hrest, ?_⟩
            rw [List.getLastD_cons, getLastD_default_irrel rest it dfltItem hrest] at h2
            exact h2

/-- C6: the terminal-punctuation law of `validate_lists` over an
ordinary list group whose items are plain (no heading-like formatting)
and have nonempty contents: in a group of more than one item the first
item must end in `,` or `;` (otherwise a first-item error); when the
first item ends in such a character `c`, every middle item gets a
terminator-mismatch error exactly when it does not end in `c`; the last
item (also of a single-item group) gets a last-item error exactly when
it does not end in `.`.  Concretely: a 3-item group ending `,` `,` `.`
yields no punctuation errors; one ending `,` `;` `.` yields exactly the
mismatch error on item 2; a single item ending `,` yields the
must-end-in-dot error. -/
theorem claim_C6_list_terminators (group : List LItem)
    (hplain : ∀ it ∈ group, it.potentialHeading = false ∧ it.content ≠ []) :
    (1 < group.length →
      (PunctErr.firstBad 0 ∈ groupPunctErrors group ↔
        (group.getD 0 dfltItem).content.getLastD ' ' ∉ ALLOWED_END_CHARS)) ∧
    (∀ c, 1 < group.length →
      (group.getD 0 dfltItem).content.getLastD ' ' = c →
      c ∈ ALLOWED_END_CHARS →
      ∀ i, 1 ≤ i → i < group.length - 1 →
        (PunctErr.mismatch i ∈ groupPunctErrors group ↔
          (group.getD i dfltItem).content.getLastD ' ' ≠ c)) ∧
    (PunctErr.lastBad (group.length - 1) ∈ groupPunctErrors group ↔
      (group ≠ [] ∧ (group.getLastD dfltItem).content.getLastD ' ' ≠ '.')) ∧
    groupPunctErrors
      [⟨['a', ','], false⟩, ⟨['b', ','], false⟩, ⟨['c', '.'], false⟩] = [] ∧
    groupPunctErrors
      [⟨['a', ','], false⟩, ⟨['b', ';'], false⟩, ⟨['c', '.'], false⟩] =
      [PunctErr.mismatch 1] ∧
    groupPunctErrors [⟨['a', ','], false⟩] = [PunctErr.lastBad 0] := by
  refine ⟨?_, ?_, ?_, by decide, by decide, by decide⟩
  · -- first-item law
    intro hn
    cases group with
    | nil => simp at hn
    | cons it0 rest =>
        have hhead := hplain it0 (List.mem_cons_self _ _)
        unfold groupPunctErrors
        rw [punctAux]
        rw [if_neg (by rw [hhead.1]; exact Bool.false_ne_true)]
        rw [if_pos ⟨rfl, hn⟩]
        rw [List.mem_append]
        simp only [List.getD_cons_zero]
        constructor
        · rintro (hl | hr)
          · split at hl
            · rename_i hcond; exact hcond.2
            · simp at hl
          · have := punctAux_idx_ge _ rest 1 _ _ hr
            simp [PunctErr.idx] at this
        · intro hnot
          left
          rw [if_pos ⟨hhead.2, hnot⟩]
          exact List.mem_singleton.mpr rfl
  · -- middle-item law
    intro c hn hc hcm i hi1 hi2
    cases group with
    | nil => simp at hn
    | cons it0 rest =>
        have hhead := hplain it0 (List.mem_cons_self _ _)
        simp only [List.getD_cons_zero] at hc
        have hstep : groupPunctErrors (it0 :: rest) =
            punctAux (it0 :: rest).length 1 (some c) rest := by
          unfold groupPunctErrors
          rw [punctAux]
          rw [if_neg (by rw [hhead.1]; exact Bool.false_ne_true)]
          rw [if_pos ⟨rfl, hn⟩]
          rw [if_neg (by rintro ⟨_, habs⟩; rw [hc] at habs; exact habs hcm)]
          rw [List.nil_append]
          unfold firstEndChar
          rw [if_pos ⟨hhead.2, hc ▸ hcm⟩, hc]
        rw [hstep]
        rw [punctAux_eq_tailSpec _ c rest 1 (le_refl 1)
          (fun x hx => (hplain x (List.mem_cons_of_mem _ hx)).1)]
        rw [tailSpec_mem_mismatch _ c rest 1 i
          (fun x hx => (hplain x (List.mem_cons_of_mem _ hx)).2) hi1]
        have hgd : (it0 :: rest).getD i dfltItem = rest.getD (i - 1) dfltItem := by
          cases i with
          | zero => omega
          | succ k => simp [List.getD_cons_succ]
        simp only [List.length_cons] at hn hi2 ⊢
        constructor
        · rintro ⟨_, _, h3⟩
          rw [hgd]
          exact h3
        · intro h3
          refine ⟨by omega, by omega, ?_⟩
          rw [← hgd]
          exact h3
  · -- last-item law
    have h := punctAux_mem_lastBad group.length group 0 none hplain (by omega)
    unfold groupPunctErrors
    exact h

/-- Witness for C6 at a concrete two-item group whose first item ends in
`.` (not an allowed terminator). -/
theorem claim_C6_witness :
    PunctErr.firstBad 0 ∈ groupPunctErrors
        [⟨['x', '.'], false⟩, ⟨['y', '.'], false⟩] ↔
      (([⟨['x', '.'], false⟩, ⟨['y', '.'], false⟩] :
          List LItem).getD 0 dfltItem).content.getLastD ' ' ∉ ALLOWED_END_CHARS :=
  (claim_C6_list_terminators
      [⟨['x', '.'], false⟩, ⟨['y', '.'], false⟩] (by decide)).1 (by decide)

theorem appendixStep_invariant (letters : List Char) (idx : Nat) (t : List Char)
    (h1 : letters.Nodup) (h2 : ∀ c ∈ letters, c ∈ allowed_appendix_letters) :
    (appendixStep letters idx t).1.Nodup ∧
      ∀ c ∈ (appendixStep letters idx t).1, c ∈ allowed_appendix_letters := by
  unfold appendixStep appendixStepCore
  split
  · exact ⟨h1, h2⟩
  · split
    · exact ⟨h1, h2⟩
    · split
      · split
        · split
          · rename_i hallowed
            split
            · exact ⟨h1, h2⟩
            · rename_i hnotmem
              constructor
              · rw [List.nodup_append]
                exact ⟨h1, List.nodup_singleton _,
                  fun x hx hxc => hnotmem ((List.mem_singleton.mp hxc) ▸ hx)⟩
              · intro x hx
                rcases List.mem_append.mp hx with hxl | hxr
                · exact h2 x hxl
                · rw [List.mem_singleton.mp hxr]
                  exact hallowed
          · exact ⟨h1, h2⟩
        · exact ⟨h1, h2⟩
      · exact ⟨h1, h2⟩

theorem appendixFold_invariant :
    ∀ (texts : List (List Char)) (st : List Char × Nat × List AppErr),
      st.1.Nodup → (∀ c ∈ st.1, c ∈ allowed_appendix_letters) →
      (texts.foldl appendixFoldStep st).1.Nodup ∧
        ∀ c ∈ (texts.foldl appendixFoldStep st).1,
          c ∈ allowed_appendix_letters := by
  intro texts
  induction texts with
  | nil => intro st h1 h2; exact ⟨h1, h2⟩
  | cons t rest ih =>
      intro st h1 h2
      rw [List.foldl_cons]
      have hstep := appendixStep_invariant st.1 st.2.1 t h1 h2
      exact ih _ hstep.1 hstep.2

/-- C8 counterexample: the allowed appendix alphabet of the code has 25
letters, not 24.  Feeding the scan the 25 paragraphs
`"Приложение А"`, …, `"Приложение Я"` (one per allowed letter) accepts
all of them with no error, so the set of accepted letters reaches 25
distinct characters — it cannot be drawn from any fixed 24-letter
alphabet. -/
theorem claim_C8_counterexample :
    (appendixScan (allowed_appendix_letters.map
        (fun ch => (r"Приложение ").toList ++ [ch]))).2 = [] ∧
    (appendixScan (allowed_appendix_letters.map
        (fun ch => (r"Приложение ").toList ++ [ch]))).1 =
      allowed_appendix_letters ∧
    24 < (appendixScan (allowed_appendix_letters.map
        (fun ch => (r"Приложение ").toList ++ [ch]))).1.toFinset.card := by
  refine ⟨by decide, by decide, by decide⟩

/-- C8 (amended): throughout the scan of `check_structural_elements`,
the set of accepted appendix letters only ever contains single
characters drawn from the fixed **25-letter** Cyrillic alphabet
`allowed_appendix_letters` (the Russian capitals minus the visually
ambiguous `Ё З Й О Ч Ъ Ы Ь`), and no letter is accepted twice (the
result is duplicate-free for every input prefix, since the input list is
universally quantified); `"Приложение Ё"` produces an invalid-letter
error, and a second `"Приложение А"` produces a duplicate-letter error
on the second occurrence. -/
theorem claim_C8_amended :
    allowed_appendix_letters.length = 25 ∧
    allowed_appendix_letters.Nodup ∧
    (∀ texts : List (List Char),
      (appendixScan texts).1.Nodup ∧
        ∀ c ∈ (appendixScan texts).1, c ∈ allowed_appendix_letters) ∧
    (appendixScan [(r"Приложение Ё").toList]).2 =
      [AppErr.invalidLetter 0 ['Ё']] ∧
    (appendixScan [(r"Приложение А").toList, (r"Приложение А").toList]).2 =
      [AppErr.duplicateLetter 1 'А'] := by
  refine ⟨by decide, by decide, ?_, by decide, by decide⟩
  intro texts
  exact appendixFold_invariant texts ([], 0, []) List.nodup_nil (by simp)

/-- Witness for the amended C8 at a concrete input. -/
theorem claim_C8_amended_witness :
    (appendixScan [(r"Приложение А").toList]).1.Nodup ∧
    'А' ∈ allowed_appendix_letters :=
  ⟨(claim_C8_amended.2.2.1 [(r"Приложение А").toList]).1,
   (claim_C8_amended.2.2.1 [(r"Приложение А").toList]).2 'А' (by decide)⟩

/-- C9: for every list paragraph whose catalog-resolved numbering
format is not `decimal`, `validate_prefix_format` emits exactly the
generic invalid-format error ("Разрешены только 1 2 3 и т.д."), whatever
the rendered prefix is — in particular the lowercase-Cyrillic prefix
shape (`russianLower`, e.g. `"а)"`) is never accepted, its validation
branch being commented out in the source (lines 294-308).  (Paragraphs
whose format resolves to `bullet` never reach this function:
`extract_list_items` handles them separately and `continue`s at line
459.) -/
theorem claim_C9_nondecimal_rejected (pre fmt : List Char)
    (h : fmt ≠ decimalFmt) :
    validate_prefix_format pre fmt = [PrefixErr.invalidFormat] := by
  unfold validate_prefix_format
  rw [if_neg h]

/-- Witness for C9: a `russianLower`-formatted prefix `"а)"` gets the
generic invalid-format error, not acceptance. -/
theorem claim_C9_witness :
    validate_prefix_format ((r"а)").toList) ((r"russianLower").toList) =
      [PrefixErr.invalidFormat] :=
  claim_C9_nondecimal_rejected ((r"а)").toList) ((r"russianLower").toList)
    (by decide)

theorem yxPart_lastFmt (st : TabState) (idx : Nat) (parts : List Nat) :
    (yxPart st idx parts).1.lastFmt = st.lastFmt := by
  unfold yxPart
  split
  · cases st.currentHeading <;> rfl
  · rfl

theorem yxPart_no_modeErr (st : TabState) (idx : Nat) (parts : List Nat) :
    (yxPart st idx parts).2.filter isModeErr = [] := by
  unfold yxPart
  split
  · cases st.currentHeading with
    | none => split <;> simp [isModeErr]
    | some h =>
        rw [List.filter_append]
        split <;> split <;> simp [isModeErr]
  · rfl

theorem errsAPart_no_modeErr (idx : Nat) (parts : List Nat) :
    (errsAPart idx parts).filter isModeErr = [] := by
  unfold errsAPart
  split
  · simp [isModeErr]
  · split <;> simp [isModeErr]

theorem seqPart_no_modeErr (st : TabState) (idx : Nat) (parts : List Nat) :
    (seqPart st idx parts).2.filter isModeErr = [] := by
  unfold seqPart
  split
  · split <;> simp [isModeErr]
  · rfl

theorem seqPart_lastFmt (st : TabState) (idx : Nat) (parts : List Nat) :
    (seqPart st idx parts).1.lastFmt = st.lastFmt := by
  unfold seqPart
  split <;> rfl

theorem modeCheck_filter (lf : Option CapFmt) (idx : Nat) (cf : CapFmt) :
    (modeCheck lf idx cf).filter isModeErr = modeCheck lf idx cf := by
  unfold modeCheck
  cases lf with
  | none => rfl
  | some f => split <;> simp [isModeErr]

theorem mainCaption_modeErrs (st : TabState) (idx : Nat) (parts : List Nat) :
    (mainCaptionErrors st idx parts).2.filter isModeErr =
      modeCheck st.lastFmt idx (capFmtOf parts) ∧
    (mainCaptionErrors st idx parts).1.lastFmt = some (capFmtOf parts) := by
  constructor
  · show (errsAPart idx parts ++ (yxPart st idx parts).2 ++
        modeCheck (yxPart st idx parts).1.lastFmt idx (capFmtOf parts) ++
        (seqPart (withMode (yxPart st idx parts).1 parts) idx parts).2).filter
          isModeErr = _
    rw [List.filter_append, List.filter_append, List.filter_append]
    rw [errsAPart_no_modeErr, yxPart_no_modeErr, modeCheck_filter,
      seqPart_no_modeErr, yxPart_lastFmt]
    simp
  · show (seqPart (withMode (yxPart st idx parts).1 parts) idx parts).1.lastFmt = _
    rw [seqPart_lastFmt]
    rfl

/-- C7 counterexample: the caption-format mode is **not** fixed by the
first main-body caption; it is compared against the immediately
preceding main-body caption.  With captions `Таблица 1 – …` (index 1,
sequential), `Таблица 1.1 – …` (index 2, Y.X) and `Таблица 1.2 – …`
(index 3, Y.X) under heading `1 Обзор`, the third caption is written in
the other mode than the first caption fixed, yet the code emits the
"different format" error only at index 2 and none at index 3 — the
claim, as stated, demands one at index 3 as well. -/
theorem claim_C7_counterexample :
    tableCapErrors
      [(r"1 Обзор").toList, (r"Таблица 1 – Аналитика").toList,
       (r"Таблица 1.1 – Данные").toList, (r"Таблица 1.2 – Сводка").toList] =
      [TabErr.modeMismatch 2 CapFmt.sequential] ∧
    TabErr.modeMismatch 3 CapFmt.sequential ∉ tableCapErrors
      [(r"1 Обзор").toList, (r"Таблица 1 – Аналитика").toList,
       (r"Таблица 1.1 – Данные").toList, (r"Таблица 1.2 – Сводка").toList] ∧
    TabErr.modeMismatch 3 CapFmt.yx ∉ tableCapErrors
      [(r"1 Обзор").toList, (r"Таблица 1 – Аналитика").toList,
       (r"Таблица 1.1 – Данные").toList, (r"Таблица 1.2 – Сводка").toList] := by
  refine ⟨by decide, by decide, by decide⟩

/-- C7 (amended): for every matched main-body table caption, the
"uses a different format from the previous caption" error is emitted
exactly when `last_caption_format` holds the mode of the immediately
preceding main-body caption and it differs from the current caption's
mode; the tracked mode is then updated to the current caption's mode
(so the comparison is always against the previous main-body caption,
not the first one).  In particular a first caption `Таблица 1 – X`
followed by `Таблица 2.1 – Y` in the main body triggers that error on
the second caption. -/
theorem claim_C7_amended (st : TabState) (idx : Nat) (parts : List Nat) :
    ((mainCaptionErrors st idx parts).2.filter isModeErr =
      modeCheck st.lastFmt idx (capFmtOf parts)) ∧
    ((mainCaptionErrors st idx parts).1.lastFmt = some (capFmtOf parts)) ∧
    tableCapErrors
      [(r"Таблица 1 – Имя").toList, (r"Таблица 2.1 – Имя").toList] =
      [TabErr.badHeadingRef 1 2, TabErr.modeMismatch 1 CapFmt.sequential] :=
  ⟨(mainCaption_modeErrs st idx parts).1,
   (mainCaption_modeErrs st idx parts).2, by decide⟩

end Fmt
